import Mathlib

/-!
Verification development for `battle_mvp.py`, a deterministic turn-based
battle engine between two parties of role-based combatants.

The Python source is embedded shallowly:

* characters, parties and their mutable fields become Lean structures over
  `Int` (Python integers are unbounded and signed);
* the seeded global `random` module becomes an explicit generator state
  (`RState`) threaded through every function that draws randomness; the
  concrete generator is irrelevant to all properties proved here, which
  depend only on its determinism;
* in-place mutation becomes explicit state passing on `BState`; Python
  object references into the party lists become `CharId` indices;
* the resolver log strings become structured `Record` values, the empty
  string `""` (no-op) becomes `none`;
* the float formulas are modelled by exact integer/rational arithmetic:
  `int(raw * 0.6)` is `3 * raw / 5` and `hp / max_hp < 0.70` is the exact
  rational comparison, which agree with the double computations on the
  engine's value ranges;
* the one way the engine can raise (`ZeroDivisionError` when a healer ranks
  a living ally whose `max_hp` is `0`) is modelled by `Except Unit`.
-/

namespace BattleMvp

/-- Combatant roles (`class Role(Enum)` in the source). -/
inductive Role where
  | attacker
  | healer
  | supporter
  | tank
  deriving DecidableEq, Repr

/-- Action kinds (`class Action(Enum)` in the source). -/
inductive Action where
  | attack
  | heal
  | defend
  | support_attack
  | aoe_attack
  deriving DecidableEq, Repr

/-- Transient/persistent per-character modifiers (`@dataclass Effects`). -/
structure Effects where
  defending : Bool := false
  atk_buff : Int := 0
  atk_debuff : Int := 0
  deriving DecidableEq, Repr

/-- Cooldown bookkeeping (`@dataclass Cooldowns`). -/
structure Cooldowns where
  aoe_attack : Int := 0
  deriving DecidableEq, Repr

/-- Numeric stats (`@dataclass Stats`); `luk` is unused by the engine. -/
structure Stats where
  max_hp : Int := 100
  hp : Int := 100
  atk : Int := 5
  vit : Int := 5
  luk : Int := 5
  spd : Int := 5
  deriving DecidableEq, Repr

/-- A combatant (`@dataclass Character`). -/
structure Character where
  name : String
  role : Role
  stats : Stats
  effects : Effects := {}
  cds : Cooldowns := {}
  deriving DecidableEq, Repr

/-- Python's `Character.alive`: alive iff `hp > 0`. -/
def Character.alive (c : Character) : Bool := decide (0 < c.stats.hp)

/-- A party (`@dataclass Party`). -/
structure Party where
  name : String
  members : List Character
  deriving DecidableEq, Repr

/-- State of the pseudo-random generator. Python's seeded global `random`
is modelled by an explicit deterministic generator threaded through the
engine; everything proved below depends only on its determinism. -/
abbrev RState := Nat

/-- Steps the generator (a linear congruential step; the concrete choice is
immaterial, see `RState`). -/
def rngNext (s : RState) : RState := (s * 1103515245 + 12345) % 2147483648

/-- Model of `roll_die()` = `random.randint(1, 6)`: a value in `[1, 6]` and
the advanced generator state. -/
def roll_die (s : RState) : Nat × RState := (rngNext s % 6 + 1, rngNext s)

/-- Model of `roll_dice(n)`: sum of `n` die rolls, threading the state. -/
def roll_dice : Nat → RState → Nat × RState
  | 0, s => (0, s)
  | n + 1, s =>
    let (d, s') := roll_die s
    let (r, s'') := roll_dice n s'
    (d + r, s'')

/-- Model of `random._randbelow` style draws used by the shuffle model. -/
def randBelow (n : Nat) (s : RState) : Nat × RState := (rngNext s % n, rngNext s)

/-- Removes the element at position `j` of `a :: rest` (element first). -/
def pickAt {α : Type} : α → List α → Nat → α × List α
  | a, rest, 0 => (a, rest)
  | a, [], _ + 1 => (a, [])
  | a, b :: bs, j + 1 =>
    let (x, l') := pickAt b bs j
    (x, a :: l')

/-- Worker for `shuffle`, with fuel equal to the list length. -/
def shuffleGo {α : Type} : Nat → List α → RState → List α × RState
  | 0, l, s => (l, s)
  | _ + 1, [], s => ([], s)
  | fuel + 1, a :: rest, s =>
    let (j, s') := randBelow (rest.length + 1) s
    let (x, l') := pickAt a rest j
    let (res, s'') := shuffleGo fuel l' s'
    (x :: res, s'')

/-- Model of `random.shuffle`: a generator-state-determined permutation. -/
def shuffle {α : Type} (l : List α) (s : RState) : List α × RState :=
  shuffleGo l.length l s

/-- Python's `clamp_hp`: `hp = max(0, min(hp, max_hp))`. -/
def clamp_hp (c : Character) : Character :=
  { c with stats := { c.stats with hp := max 0 (min c.stats.hp c.stats.max_hp) } }

/-- Python's `living(p)`: the living members, in party order. -/
def living (p : Party) : List Character := p.members.filter fun c => c.alive

/-- Python's `party_defeated(p)`: `all(not c.alive() for c in p.members)`. -/
def party_defeated (p : Party) : Bool := p.members.all fun c => !c.alive

/-- Pairs each list element with its index, starting from `n`. -/
def idxFrom (n : Nat) : List Character → List (Nat × Character)
  | [] => []
  | c :: cs => (n, c) :: idxFrom (n + 1) cs

/-- Living members of a party together with their member indices; the index
plays the part of the Python object reference. -/
def livingIdx (p : Party) : List (Nat × Character) :=
  (idxFrom 0 p.members).filter fun q => q.2.alive

/-- Python's `min(l, key=key)` with initial element `b`: the first element
attaining the minimal key (`min` keeps the earliest on ties). -/
def minByKey {β : Type} [LinearOrder β] (key : Nat × Character → β)
    (b : Nat × Character) (l : List (Nat × Character)) : Nat × Character :=
  l.foldl (fun best c => if key c < key best then c else best) b

/-- Python's `pick_enemy(p)`: the living enemy with the lowest absolute
`hp` (first found on ties), or `None`. -/
def pick_enemy (p : Party) : Option (Nat × Character) :=
  match livingIdx p with
  | [] => none
  | a :: rest => some (minByKey (fun q => q.2.stats.hp) a rest)

/-- The `hp / max_hp` ratio as an exact rational (the Python float
quotient agrees with it on the comparisons the engine makes). -/
def hpRatio (c : Character) : ℚ := (c.stats.hp : ℚ) / (c.stats.max_hp : ℚ)

/-- Python's `find_most_damaged_ally(p)`: the living ally with the lowest
`hp / max_hp` ratio, or `None`. The `ZeroDivisionError` Python would raise
when a living ally has `max_hp == 0` is handled at the call site in
`choose_action`. -/
def find_most_damaged_ally (p : Party) : Option (Nat × Character) :=
  match livingIdx p with
  | [] => none
  | a :: rest => some (minByKey (fun q => hpRatio q.2) a rest)

/-- Identifies the two parties of a battle state. -/
inductive Side where
  | one
  | two
  deriving DecidableEq, Repr

/-- The opposite side. -/
def Side.other : Side → Side
  | .one => .two
  | .two => .one

/-- A character reference: owning side plus index into that party's
member list. -/
abbrev CharId := Side × Nat

/-- The full mutable battle state: both parties plus the generator state. -/
structure BState where
  p1 : Party
  p2 : Party
  rng : RState
  deriving DecidableEq, Repr

/-- The party on a given side. -/
def partyOf (st : BState) : Side → Party
  | .one => st.p1
  | .two => st.p2

/-- Dereferences a character id in the current state. -/
def getChar (st : BState) (id : CharId) : Option Character :=
  (partyOf st id.1).members[id.2]?

/-- Writes a character back through its id (models in-place mutation). -/
def setChar (st : BState) (id : CharId) (c : Character) : BState :=
  match id.1 with
  | .one => { st with p1 := { st.p1 with members := st.p1.members.set id.2 c } }
  | .two => { st with p2 := { st.p2 with members := st.p2.members.set id.2 c } }

/-- Reads, transforms and writes back one character. -/
def modifyChar (st : BState) (id : CharId) (f : Character → Character) : BState :=
  match getChar st id with
  | some c => setChar st id (f c)
  | none => st

/-- Applies `f` to every member of both parties. -/
def mapChars (f : Character → Character) (st : BState) : BState :=
  { st with
    p1 := { st.p1 with members := st.p1.members.map f }
    p2 := { st.p2 with members := st.p2.members.map f } }

/-- One character's share of `tick_cooldowns`: `if aoe > 0: aoe -= 1`. -/
def tickChar (c : Character) : Character :=
  if c.cds.aoe_attack > 0 then { c with cds := { aoe_attack := c.cds.aoe_attack - 1 } } else c

/-- One character's share of `reset_turn_flags`: clears `defending` and
`atk_buff`; `atk_debuff` is deliberately left alone (the commented-out line
in the source). -/
def resetChar (c : Character) : Character :=
  { c with effects := { c.effects with defending := false, atk_buff := 0 } }

/-- Python's `tick_cooldowns(p1, p2)`. -/
def tick_cooldowns (st : BState) : BState := mapChars tickChar st

/-- Python's `reset_turn_flags(p1, p2)`. -/
def reset_turn_flags (st : BState) : BState := mapChars resetChar st

/-- The round-start sort key: speed of the character (speed is never
mutated, so the round-start value and the current value coincide). -/
def spdKey (q : CharId × Character) : Int := q.2.stats.spd

/-- One insertion step of the stable descending insertion sort. -/
def insertDesc (c : CharId × Character) :
    List (CharId × Character) → List (CharId × Character)
  | [] => [c]
  | x :: xs => if spdKey x ≤ spdKey c then c :: x :: xs else x :: insertDesc c xs

/-- Stable descending sort by `spd`, the model of Python's stable
`chars.sort(key=spd, reverse=True)`. -/
def sortBySpd (l : List (CharId × Character)) : List (CharId × Character) :=
  l.foldr insertDesc []

/-- All living characters of both parties with their ids
(`living(p1) + living(p2)` in the source). -/
def taggedLiving (st : BState) : List (CharId × Character) :=
  ((livingIdx st.p1).map fun q => ((Side.one, q.1), q.2)) ++
    ((livingIdx st.p2).map fun q => ((Side.two, q.1), q.2))

/-- Python's `build_turn_order`: shuffle the living characters, then
stable-sort them descending by speed; returns ids plus the advanced
generator state. -/
def build_turn_order (st : BState) : List CharId × RState :=
  let (shuf, s') := shuffle (taggedLiving st) st.rng
  ((sortBySpd shuf).map (·.1), s')

/-- Five times `phase_multiplier(turn)`: the multipliers 1.0 / 1.2 / 1.4
scaled to the integers 5 / 6 / 7 so all raw-damage floors are exact. -/
def phase_multiplier5 (turn : Nat) : Int :=
  if turn ≥ 15 then 7 else if turn ≥ 10 then 6 else 5

/-- Python's `effective_atk_value`: reads `atk + atk_buff + atk_debuff`,
consumes (zeroes) a nonzero `atk_debuff` as a side effect, and returns the
value floored at 1. Returns the updated character plus the value. -/
def effective_atk_value (a : Character) : Character × Int :=
  let val := a.stats.atk + a.effects.atk_buff + a.effects.atk_debuff
  let a' :=
    if a.effects.atk_debuff ≠ 0 then
      { a with effects := { a.effects with atk_debuff := 0 } }
    else a
  (a', max 1 val)

/-- Python's `apply_damage`: reduces to `int(raw * 0.6)` (= `3 * raw / 5`
for the nonnegative raws the engine produces) while defending, subtracts,
clamps, and returns the updated character plus the damage value. -/
def apply_damage (t : Character) (raw : Int) : Character × Int :=
  let dmg := if t.effects.defending then 3 * raw / 5 else raw
  let t' := clamp_hp { t with stats := { t.stats with hp := t.stats.hp - dmg } }
  (t', dmg)

/-- State-level `effective_atk_value`: applies the side effect at `id`. -/
def effectiveAtkSt (st : BState) (id : CharId) : BState × Int :=
  match getChar st id with
  | some a =>
    let (a', v) := effective_atk_value a
    (setChar st id a', v)
  | none => (st, 1)

/-- State-level `apply_damage` at `id`. -/
def applyDamageSt (st : BState) (id : CharId) (raw : Int) : BState × Int :=
  match getChar st id with
  | some t =>
    let (t', d) := apply_damage t raw
    (setChar st id t', d)
  | none => (st, 0)

/-- One target's entry of a resolution record. -/
structure Hit where
  target : String
  dmg : Int
  hp_after : Int
  deriving DecidableEq, Repr

/-- A structured resolution record; the Python source produces the same
data as a formatted log string, and `""` (a no-op) becomes `none`. -/
structure Record where
  actor : String
  act : Action
  dice : Nat
  raw : Int
  hits : List Hit
  deriving DecidableEq, Repr

/-- Python's `resolve_attack(attacker, target, turn)`. -/
def resolve_attack (st : BState) (aid tid : CharId) (turn : Nat) :
    BState × Option Record :=
  match getChar st aid, getChar st tid with
  | some a, some t0 =>
    if a.alive && t0.alive then
      let (dice, s') := roll_dice 2 st.rng
      let st1 : BState := { st with rng := s' }
      let (st2, atk_val) := effectiveAtkSt st1 aid
      let raw := (dice : Int) * atk_val * phase_multiplier5 turn / 5
      let (st3, dmg) := applyDamageSt st2 tid raw
      let hp_after := match getChar st3 tid with | some t => t.stats.hp | none => 0
      (st3, some { actor := a.name, act := .attack, dice := dice, raw := raw,
                   hits := [{ target := t0.name, dmg := dmg, hp_after := hp_after }] })
    else (st, none)
  | _, _ => (st, none)

/-- The per-target loop of `resolve_aoe_attack`: applies the same raw
damage to each collected target in order, collecting hit entries. -/
def aoeApply (side : Side) (raw : Int) :
    BState → List (Nat × Character) → BState × List Hit
  | st, [] => (st, [])
  | st, (i, _) :: rest =>
    match getChar st (side, i) with
    | some t =>
      let (t', d) := apply_damage t raw
      let st' := setChar st (side, i) t'
      let (st'', hs) := aoeApply side raw st' rest
      (st'', { target := t.name, dmg := d, hp_after := t'.stats.hp } :: hs)
    | none => aoeApply side raw st rest

/-- Python's `resolve_aoe_attack(attacker, enemies, turn)`: one die, 0.8
scaling, hits every currently-living member of the enemy party, then sets
the attacker's AOE cooldown to 3. -/
def resolve_aoe_attack (st : BState) (aid : CharId) (eside : Side) (turn : Nat) :
    BState × Option Record :=
  match getChar st aid with
  | some a =>
    if a.alive then
      let targets := livingIdx (partyOf st eside)
      if targets.isEmpty then (st, none)
      else
        let (dice, s') := roll_dice 1 st.rng
        let st1 : BState := { st with rng := s' }
        let (st2, atk_val) := effectiveAtkSt st1 aid
        let raw_base := (dice : Int) * atk_val * phase_multiplier5 turn * 4 / 25
        let (st3, hits) := aoeApply eside raw_base st2 targets
        let st4 := modifyChar st3 aid fun c => { c with cds := { aoe_attack := 3 } }
        (st4, some { actor := a.name, act := .aoe_attack, dice := dice,
                     raw := raw_base, hits := hits })
    else (st, none)
  | none => (st, none)

/-- Python's `resolve_support_attack(supporter, target, turn)`: one die,
damage, then unconditionally sets the target's `atk_debuff` to `-2`. -/
def resolve_support_attack (st : BState) (aid tid : CharId) (turn : Nat) :
    BState × Option Record :=
  match getChar st aid, getChar st tid with
  | some a, some t0 =>
    if a.alive && t0.alive then
      let (dice, s') := roll_dice 1 st.rng
      let st1 : BState := { st with rng := s' }
      let (st2, atk_val) := effectiveAtkSt st1 aid
      let raw := (dice : Int) * atk_val * phase_multiplier5 turn / 5
      let (st3, dmg) := applyDamageSt st2 tid raw
      let st4 := modifyChar st3 tid fun c =>
        { c with effects := { c.effects with atk_debuff := -2 } }
      let hp_after := match getChar st4 tid with | some t => t.stats.hp | none => 0
      (st4, some { actor := a.name, act := .support_attack, dice := dice, raw := raw,
                   hits := [{ target := t0.name, dmg := dmg, hp_after := hp_after }] })
    else (st, none)
  | _, _ => (st, none)

/-- Python's `resolve_heal(healer, target)`: one die times the healer's
`vit`, added then clamped; the recorded amount is the post-clamp delta. -/
def resolve_heal (st : BState) (hid tid : CharId) : BState × Option Record :=
  match getChar st hid, getChar st tid with
  | some hl, some t0 =>
    if hl.alive && t0.alive then
      let (dice, s') := roll_dice 1 st.rng
      let st1 : BState := { st with rng := s' }
      let amount := (dice : Int) * hl.stats.vit
      let before := t0.stats.hp
      let t' := clamp_hp { t0 with stats := { t0.stats with hp := t0.stats.hp + amount } }
      let st2 := setChar st1 tid t'
      let actual := t'.stats.hp - before
      (st2, some { actor := hl.name, act := .heal, dice := dice, raw := amount,
                   hits := [{ target := t0.name, dmg := actual, hp_after := t'.stats.hp }] })
    else (st, none)
  | _, _ => (st, none)

/-- Python's `resolve_defend(actor)`: sets `defending = True`. -/
def resolve_defend (st : BState) (aid : CharId) : BState × Option Record :=
  match getChar st aid with
  | some a =>
    if a.alive then
      let st' := modifyChar st aid fun c =>
        { c with effects := { c.effects with defending := true } }
      (st', some { actor := a.name, act := .defend, dice := 0, raw := 0, hits := [] })
    else (st, none)
  | none => (st, none)

/-- Python's `choose_action(actor, allies, enemies)`. The returned index
points into `allies.members` for a heal and into `enemies.members`
otherwise. `.error ()` models the `ZeroDivisionError` the source raises
when the healer branch ranks a living ally whose `max_hp` is `0`. -/
def choose_action (actor : Character) (allies enemies : Party) :
    Except Unit (Action × Option Nat) :=
  let enemy_list := livingIdx enemies
  if enemy_list.isEmpty then .ok (.defend, none)
  else if actor.role = .attacker then
    let low_hp_exists := enemy_list.any fun e => decide (e.2.stats.hp ≤ 50)
    if enemy_list.length ≥ 3 ∧ actor.cds.aoe_attack = 0 ∧ low_hp_exists then
      .ok (.aoe_attack, none)
    else .ok (.attack, (pick_enemy enemies).map (·.1))
  else if actor.role = .healer then
    if (livingIdx allies).any fun q => decide (q.2.stats.max_hp = 0) then .error ()
    else
      match find_most_damaged_ally allies with
      | some (i, t) =>
        if hpRatio t < 7 / 10 then .ok (.heal, some i) else .ok (.defend, none)
      | none => .ok (.defend, none)
  else if actor.role = .supporter then
    let attackers := enemy_list.filter fun e => decide (e.2.role = .attacker)
    let target := match attackers with | a :: _ => some a | [] => pick_enemy enemies
    match target with
    | none => .ok (.defend, none)
    | some (i, _) => .ok (.support_attack, some i)
  else .ok (.defend, none)

/-- Whether the referenced character currently exists and is alive. -/
def aliveAt (st : BState) (id : CharId) : Bool :=
  match getChar st id with
  | some c => c.alive
  | none => false

/-- The actor's party, decided as the source does:
`allies = p1 if actor in p1.members else p2` (structural equality). -/
def sideOf (st : BState) (c : Character) : Side :=
  if c ∈ st.p1.members then .one else .two

/-- One actor's turn: action selection plus dispatch to the matching
resolver, exactly mirroring the dispatch in `battle`'s inner loop. -/
def actOnce (st : BState) (id : CharId) (turn : Nat) :
    Except Unit (BState × Option Record) :=
  match getChar st id with
  | none => .ok (st, none)
  | some actor =>
    let aside := sideOf st actor
    let eside := aside.other
    match choose_action actor (partyOf st aside) (partyOf st eside) with
    | .error e => .error e
    | .ok (act, tgt) =>
      match act, tgt with
      | .attack, some i => .ok (resolve_attack st id (eside, i) turn)
      | .aoe_attack, _ => .ok (resolve_aoe_attack st id eside turn)
      | .support_attack, some i => .ok (resolve_support_attack st id (eside, i) turn)
      | .heal, some i => .ok (resolve_heal st id (aside, i))
      | .defend, _ => .ok (resolve_defend st id)
      | _, none => .ok (st, none)

/-- Result of processing (a suffix of) one round's precomputed order. -/
inductive RoundRes where
  | ended : String → List Record → RoundRes
  | done : BState → List Record → RoundRes
  | crashed : List Record → RoundRes
  deriving DecidableEq, Repr

/-- The inner `for actor in order` loop of `battle`: skips dead actors,
acts, and checks party defeat (p1 first, then p2) immediately after every
resolver call, stopping the whole battle mid-order on a defeat. -/
def processOrder (st : BState) (order : List CharId) (turn : Nat) : RoundRes :=
  match order with
  | [] => .done st []
  | id :: rest =>
    if aliveAt st id then
      match actOnce st id turn with
      | .error _ => .crashed []
      | .ok (st', rec) =>
        if party_defeated st'.p1 then .ended st'.p2.name rec.toList
        else if party_defeated st'.p2 then .ended st'.p1.name rec.toList
        else
          match processOrder st' rest turn with
          | .done s tr => .done s (rec.toList ++ tr)
          | .ended w tr => .ended w (rec.toList ++ tr)
          | .crashed tr => .crashed (rec.toList ++ tr)
    else processOrder st rest turn

/-- Round start (`tick_cooldowns`, `reset_turn_flags`, `build_turn_order`):
returns the prepared state and the precomputed order. -/
def roundInit (st : BState) : BState × List CharId :=
  let st1 := tick_cooldowns st
  let st2 := reset_turn_flags st1
  let (order, s') := build_turn_order st2
  ({ st2 with rng := s' }, order)

/-- Battle outcomes: a winner's party name, a draw at the turn limit, or a
propagated `ZeroDivisionError` (see `choose_action`). -/
inductive Outcome where
  | winner : String → Outcome
  | draw
  | crashed
  deriving DecidableEq, Repr

/-- The `while turn <= turn_limit` loop of `battle`; the fuel counts the
remaining rounds, `turn` is the current round number. -/
def battleLoop : BState → Nat → Nat → Outcome × List Record
  | _, _, 0 => (.draw, [])
  | st, turn, fuel + 1 =>
    match processOrder (roundInit st).1 (roundInit st).2 turn with
    | .ended w tr => (.winner w, tr)
    | .crashed tr => (.crashed, tr)
    | .done st4 tr =>
      let (out, tr') := battleLoop st4 (turn + 1) fuel
      (out, tr ++ tr')

/-- Initial generator state from an integer seed (`random.seed(seed)`). -/
def seed_state (seed : Int) : RState := (seed % 2147483648).toNat

/-- Python's `battle(p1, p2, seed, turn_limit)` returning the outcome plus
the full resolved-action trace. -/
def battleFull (p1 p2 : Party) (seed : Int) (turn_limit : Nat) :
    Outcome × List Record :=
  battleLoop ⟨p1, p2, seed_state seed⟩ 1 turn_limit

/-- The outcome of `battle` alone (the Python return value). -/
def battle (p1 p2 : Party) (seed : Int) (turn_limit : Nat) : Outcome :=
  (battleFull p1 p2 seed turn_limit).1

/-! ### Concrete data used by the witness theorems -/

/-- A sample attacker (stats of `make_sample_party`). -/
def attA : Character :=
  { name := "A_Att", role := .attacker, stats := { atk := 6, vit := 4, spd := 6 } }

/-- A sample healer. -/
def healA : Character :=
  { name := "A_Heal", role := .healer, stats := { atk := 3, vit := 6, spd := 5 } }

/-- A sample supporter. -/
def supA : Character :=
  { name := "A_Sup", role := .supporter, stats := { atk := 4, vit := 4, spd := 6 } }

/-- A sample tank. -/
def tankA : Character :=
  { name := "A_Tank", role := .tank, stats := { atk := 4, vit := 5, spd := 4 } }

/-- A sample four-member party. -/
def partyA : Party := { name := "A", members := [attA, healA, supA, tankA] }

/-- A second sample party. -/
def partyB : Party :=
  { name := "B",
    members := [{ attA with name := "B_Att" }, { healA with name := "B_Heal" },
                { supA with name := "B_Sup" }, { tankA with name := "B_Tank" }] }

/-- A dead character (`hp = 0`). -/
def deadB : Character := { name := "B_Dead", role := .attacker, stats := { hp := 0 } }

/-- A defending target used by the damage witnesses. -/
def defTank : Character :=
  { name := "D", role := .tank, stats := {}, effects := { defending := true } }

/-- A nearly dead target used by the overkill witness. -/
def lowHp : Character := { name := "L", role := .tank, stats := { hp := 5 } }

/-- Per-character hp invariant: `hp ∈ [0, max_hp]` (hence `0 ≤ max_hp`). -/
def charInv (c : Character) : Prop := 0 ≤ c.stats.hp ∧ c.stats.hp ≤ c.stats.max_hp

/-- Whole-state hp invariant: every member of both parties satisfies
`charInv`. -/
def hpInv (st : BState) : Prop :=
  (∀ c ∈ st.p1.members, charInv c) ∧ ∀ c ∈ st.p2.members, charInv c

/-- Concrete state for the C4 witness: party one is already fully dead and
the acting tank of party two defends. -/
def wSt : BState :=
  ⟨{ name := "A", members := [deadB] }, { name := "B", members := [tankA] }, 0⟩

/-- State after the witness action: the tank is defending. -/
def wSt' : BState :=
  ⟨{ name := "A", members := [deadB] },
    { name := "B", members := [{ tankA with effects := { defending := true } }] }, 0⟩

/-- Record of the witness action. -/
def wRec : Record := { actor := "A_Tank", act := .defend, dice := 0, raw := 0, hits := [] }

/-! ### General helper lemmas -/

/-- Looking a character up after `mapChars` maps the lookup result. -/
theorem getChar_mapChars (f : Character → Character) (st : BState) (id : CharId) :
    getChar (mapChars f st) id = (getChar st id).map f := by
  cases id with
  | mk s i => cases s <;> simp [getChar, mapChars, partyOf, List.getElem?_map]

/-! ### C1: determinism of a full battle run -/

/-- C1: two runs of `battle` from identical initial party states and the
same integer seed produce the identical full output: the same sequence of
resolved-action records (each carrying its selected action and die rolls)
and the same terminal outcome. -/
theorem battle_deterministic (p1 p2 p1' p2' : Party) (s s' : Int) (L : Nat)
    (h1 : p1 = p1') (h2 : p2 = p2') (hs : s = s') :
    battleFull p1 p2 s L = battleFull p1' p2' s' L := by
  subst h1; subst h2; subst hs; rfl

/-- Witness for C1 at the concrete sample battle with seed 3. -/
theorem battle_deterministic_witness :
    partyA = partyA ∧ partyB = partyB ∧ (3 : Int) = 3 ∧
      battleFull partyA partyB 3 50 = battleFull partyA partyB 3 50 :=
  ⟨rfl, rfl, rfl, battle_deterministic partyA partyB partyA partyB 3 3 50 rfl rfl rfl⟩

/-! ### C3: the attack debuff survives the round-start reset and is
consumed by exactly one effective-attack computation -/

/-- C3: the round-start transient reset clears only `defending` and
`atk_buff` and leaves `atk_debuff` (and everything else) unchanged, and
`effective_atk_value` returns `max 1 (atk + atk_buff + atk_debuff)` while
zeroing `atk_debuff`, so a set debuff feeds at most one effective-attack
computation and is exactly 0 immediately afterwards. -/
theorem atk_debuff_consumed (c : Character) (st : BState) (id : CharId) :
    (effective_atk_value c).2 =
        max 1 (c.stats.atk + c.effects.atk_buff + c.effects.atk_debuff) ∧
      (effective_atk_value c).1.effects.atk_debuff = 0 ∧
      resetChar c = { c with effects :=
        { defending := false, atk_buff := 0, atk_debuff := c.effects.atk_debuff } } ∧
      getChar (reset_turn_flags st) id = (getChar st id).map resetChar := by
  refine ⟨rfl, ?_, rfl, getChar_mapChars resetChar st id⟩
  by_cases h : c.effects.atk_debuff = 0 <;> simp [effective_atk_value, h]

/-! ### C7: the defending damage-reduction formula -/

/-- C7: for nonnegative raw damage, `apply_damage` computes the damage
value `⌊raw * 0.6⌋` when the target is defending and exactly `raw`
otherwise, and the target's hp becomes the clamp of `hp - damage`. -/
theorem apply_damage_defending_factor (t : Character) (raw : Int) (hraw : 0 ≤ raw) :
    (apply_damage t raw).2 =
        (if t.effects.defending = true then ⌊(raw : ℚ) * (6 / 10)⌋ else raw) ∧
      (apply_damage t raw).1.stats.hp =
        max 0 (min (t.stats.hp - (apply_damage t raw).2) t.stats.max_hp) := by
  have hcast : (raw : ℚ) * (6 / 10) = ((3 * raw : ℤ) : ℚ) / ((5 : ℕ) : ℚ) := by
    push_cast; ring
  have hfloor : ⌊(raw : ℚ) * (6 / 10)⌋ = 3 * raw / 5 := by
    rw [hcast, Rat.floor_intCast_div_natCast]; rfl
  constructor
  · by_cases hd : t.effects.defending = true <;> simp [apply_damage, hd, hfloor]
  · by_cases hd : t.effects.defending = true <;> simp [apply_damage, clamp_hp, hd]

/-- Witness for C7: a defending target hit with raw damage 7. -/
theorem apply_damage_defending_factor_witness :
    (0 : Int) ≤ 7 ∧
      ((apply_damage defTank 7).2 =
          (if defTank.effects.defending = true then ⌊((7 : Int) : ℚ) * (6 / 10)⌋ else 7) ∧
        (apply_damage defTank 7).1.stats.hp =
          max 0 (min (defTank.stats.hp - (apply_damage defTank 7).2) defTank.stats.max_hp)) :=
  ⟨by decide, apply_damage_defending_factor defTank 7 (by decide)⟩

/-! ### C10: the returned damage is the post-reduction amount, not the
hp actually lost -/

/-- C10: for a target with `hp ∈ [0, max_hp]` and nonnegative raw damage,
`apply_damage` returns the post-reduction damage amount, while the hp
actually lost is `min (returned value) (hp before)`; on lethal overkill
the returned (and logged) value strictly exceeds the hp lost. -/
theorem apply_damage_returns_reduced (t : Character) (raw : Int) (hraw : 0 ≤ raw)
    (hhp0 : 0 ≤ t.stats.hp) (hhp1 : t.stats.hp ≤ t.stats.max_hp) :
    (apply_damage t raw).2 = (if t.effects.defending = true then 3 * raw / 5 else raw) ∧
      t.stats.hp - (apply_damage t raw).1.stats.hp =
        min (apply_damage t raw).2 t.stats.hp := by
  by_cases hd : t.effects.defending = true <;>
    simp [apply_damage, clamp_hp, hd] <;> omega

/-- Witness for C10: a 5-hp target hit for 9 loses 5 hp while 9 is
returned (overkill). -/
theorem apply_damage_returns_reduced_witness :
    ((0 : Int) ≤ 9 ∧ 0 ≤ lowHp.stats.hp ∧ lowHp.stats.hp ≤ lowHp.stats.max_hp) ∧
      ((apply_damage lowHp 9).2 =
          (if lowHp.effects.defending = true then 3 * 9 / 5 else 9) ∧
        lowHp.stats.hp - (apply_damage lowHp 9).1.stats.hp =
          min (apply_damage lowHp 9).2 lowHp.stats.hp) :=
  ⟨by decide, apply_damage_returns_reduced lowHp 9 (by decide) (by decide) (by decide)⟩

/-! ### C8: resolvers are no-ops on dead actors or targets -/

/-- C8: every resolver, called with a dead actor (or, for the targeted
resolvers, a dead target), returns the state completely unchanged — no
stat, effect, cooldown or generator-state mutation — and no record, and
(being a total function into a pair) raises nothing. -/
theorem resolvers_noop_on_dead (st : BState) (a t : CharId) (es : Side) (turn : Nat)
    (ca ct : Character) (ha : getChar st a = some ca) (ht : getChar st t = some ct) :
    (ca.alive = false →
        resolve_attack st a t turn = (st, none) ∧
        resolve_support_attack st a t turn = (st, none) ∧
        resolve_heal st a t = (st, none) ∧
        resolve_aoe_attack st a es turn = (st, none) ∧
        resolve_defend st a = (st, none)) ∧
      (ct.alive = false →
        resolve_attack st a t turn = (st, none) ∧
        resolve_support_attack st a t turn = (st, none) ∧
        resolve_heal st a t = (st, none)) := by
  constructor <;> intro h <;>
    simp [resolve_attack, resolve_support_attack, resolve_heal, resolve_aoe_attack,
      resolve_defend, ha, ht, h]

/-- Witness for C8: a state with a dead actor in party one and a living
target in party two. -/
theorem resolvers_noop_on_dead_witness :
    getChar ⟨{ name := "A", members := [deadB] }, { name := "B", members := [tankA] }, 0⟩
        (Side.one, 0) = some deadB ∧
      getChar ⟨{ name := "A", members := [deadB] }, { name := "B", members := [tankA] }, 0⟩
        (Side.two, 0) = some tankA ∧
      ((deadB.alive = false →
          resolve_attack ⟨{ name := "A", members := [deadB] },
              { name := "B", members := [tankA] }, 0⟩ (Side.one, 0) (Side.two, 0) 1 =
            (⟨{ name := "A", members := [deadB] }, { name := "B", members := [tankA] }, 0⟩,
              none) ∧
          resolve_support_attack ⟨{ name := "A", members := [deadB] },
              { name := "B", members := [tankA] }, 0⟩ (Side.one, 0) (Side.two, 0) 1 =
            (⟨{ name := "A", members := [deadB] }, { name := "B", members := [tankA] }, 0⟩,
              none) ∧
          resolve_heal ⟨{ name := "A", members := [deadB] },
              { name := "B", members := [tankA] }, 0⟩ (Side.one, 0) (Side.two, 0) =
            (⟨{ name := "A", members := [deadB] }, { name := "B", members := [tankA] }, 0⟩,
              none) ∧
          resolve_aoe_attack ⟨{ name := "A", members := [deadB] },
              { name := "B", members := [tankA] }, 0⟩ (Side.one, 0) Side.two 1 =
            (⟨{ name := "A", members := [deadB] }, { name := "B", members := [tankA] }, 0⟩,
              none) ∧
          resolve_defend ⟨{ name := "A", members := [deadB] },
              { name := "B", members := [tankA] }, 0⟩ (Side.one, 0) =
            (⟨{ name := "A", members := [deadB] }, { name := "B", members := [tankA] }, 0⟩,
              none)) ∧
        (tankA.alive = false →
          resolve_attack ⟨{ name := "A", members := [deadB] },
              { name := "B", members := [tankA] }, 0⟩ (Side.one, 0) (Side.two, 0) 1 =
            (⟨{ name := "A", members := [deadB] }, { name := "B", members := [tankA] }, 0⟩,
              none) ∧
          resolve_support_attack ⟨{ name := "A", members := [deadB] },
              { name := "B", members := [tankA] }, 0⟩ (Side.one, 0) (Side.two, 0) 1 =
            (⟨{ name := "A", members := [deadB] }, { name := "B", members := [tankA] }, 0⟩,
              none) ∧
          resolve_heal ⟨{ name := "A", members := [deadB] },
              { name := "B", members := [tankA] }, 0⟩ (Side.one, 0) (Side.two, 0) =
            (⟨{ name := "A", members := [deadB] }, { name := "B", members := [tankA] }, 0⟩,
              none))) :=
  ⟨rfl, rfl,
    resolvers_noop_on_dead _ (Side.one, 0) (Side.two, 0) Side.two 1 deadB tankA rfl rfl⟩

/-! ### Lemmas on indexed living lists and the first-minimum fold -/

/-- Indices produced by `idxFrom n` are at least `n`. -/
theorem idxFrom_le {n : Nat} :
    ∀ {l : List Character} {q : Nat × Character}, q ∈ idxFrom n l → n ≤ q.1 := by
  intro l
  induction l generalizing n with
  | nil => intro q hq; simp [idxFrom] at hq
  | cons c cs ih =>
    intro q hq
    rcases List.mem_cons.mp hq with h | h
    · subst h; exact le_refl n
    · exact le_trans (Nat.le_succ n) (ih h)

/-- Indices produced by `idxFrom` are strictly increasing. -/
theorem idxFrom_pairwise (n : Nat) (l : List Character) :
    (idxFrom n l).Pairwise (fun x y => x.1 < y.1) := by
  induction l generalizing n with
  | nil => simp [idxFrom]
  | cons c cs ih =>
    refine List.pairwise_cons.mpr ⟨?_, ih (n + 1)⟩
    intro y hy
    exact lt_of_lt_of_le (Nat.lt_succ_self n) (idxFrom_le hy)

/-- Indices of the living-members list are strictly increasing. -/
theorem livingIdx_pairwise (p : Party) :
    (livingIdx p).Pairwise (fun x y => x.1 < y.1) :=
  (idxFrom_pairwise 0 p.members).sublist (List.filter_sublist _)

/-- Characterisation of `minByKey` (the embedding of Python's
`min(l, key=key)`): the result is an element of `b :: l`, its key is
minimal, and on key ties the earliest element is kept (for index-sorted
lists: the result's index is least among the minima). -/
theorem minByKey_spec {β : Type} [LinearOrder β] (key : Nat × Character → β) :
    ∀ (l : List (Nat × Character)) (b : Nat × Character),
      (b :: l).Pairwise (fun x y => x.1 < y.1) →
      (minByKey key b l = b ∨ minByKey key b l ∈ l) ∧
        key (minByKey key b l) ≤ key b ∧
        (∀ e ∈ l, key (minByKey key b l) ≤ key e) ∧
        (key b ≤ key (minByKey key b l) → minByKey key b l = b) ∧
        (∀ e ∈ l, key e ≤ key (minByKey key b l) → (minByKey key b l).1 ≤ e.1) := by
  intro l
  induction l with
  | nil =>
    intro b _
    refine ⟨Or.inl rfl, le_refl _, ?_, fun _ => rfl, ?_⟩ <;> simp [minByKey]
  | cons c rs ih =>
    intro b hpw
    have hstep : minByKey key b (c :: rs) =
        minByKey key (if key c < key b then c else b) rs := by
      simp only [minByKey, List.foldl]
    rcases List.pairwise_cons.mp hpw with ⟨hb, hpw'⟩
    rcases List.pairwise_cons.mp hpw' with ⟨hc, hpwrs⟩
    have hpw2 : ((if key c < key b then c else b) :: rs).Pairwise
        (fun x y => x.1 < y.1) := by
      refine List.pairwise_cons.mpr ⟨?_, hpwrs⟩
      intro y hy
      by_cases h : key c < key b
      · simpa [h] using hc y hy
      · simpa [h] using hb y (List.mem_cons_of_mem _ hy)
    obtain ⟨hmem, hleb, hlel, hfix, hfirst⟩ := ih (if key c < key b then c else b) hpw2
    rw [hstep]
    set m := minByKey key (if key c < key b then c else b) rs with hm
    by_cases h : key c < key b
    · rw [if_pos h] at hmem hleb hfix
      refine ⟨?_, le_trans hleb (le_of_lt h), ?_, ?_, ?_⟩
      · rcases hmem with h' | h'
        · exact Or.inr (by rw [h']; exact List.mem_cons_self c rs)
        · exact Or.inr (List.mem_cons.mpr (Or.inr h'))
      · intro e he
        rcases List.mem_cons.mp he with h' | h'
        · rw [h']; exact hleb
        · exact hlel e h'
      · intro hbm
        exact absurd (lt_of_le_of_lt (le_trans hbm hleb) h) (lt_irrefl _)
      · intro e he hke
        rcases List.mem_cons.mp he with h' | h'
        · have h2 : m = c := hfix (h' ▸ hke)
          rw [h2, ← h']
        · exact hfirst e h' hke
    · rw [if_neg h] at hmem hleb hfix
      have hbc : key b ≤ key c := le_of_not_lt h
      refine ⟨?_, hleb, ?_, ?_, ?_⟩
      · rcases hmem with h' | h'
        · exact Or.inl h'
        · exact Or.inr (List.mem_cons.mpr (Or.inr h'))
      · intro e he
        rcases List.mem_cons.mp he with h' | h'
        · rw [h']; exact le_trans hleb hbc
        · exact hlel e h'
      · exact hfix
      · intro e he hke
        rcases List.mem_cons.mp he with h' | h'
        · have hmb : m = b := hfix (le_trans hbc (h' ▸ hke))
          rw [hmb, h']
          exact le_of_lt (hb c (List.mem_cons_self _ _))
        · exact hfirst e h' hke

/-! ### C5: the attacker policy -/

/-- C5: an attacker facing at least one living enemy chooses `AoeAttack`
(with no target) iff there are at least 3 living enemies, its AOE cooldown
is exactly 0, and some living enemy has `hp ≤ 50`; otherwise it chooses
`Attack` on the living enemy with the lowest absolute hp, ties broken by
the first such enemy in party order (least member index). -/
theorem attacker_policy (actor : Character) (allies enemies : Party)
    (hrole : actor.role = .attacker) (hne : livingIdx enemies ≠ []) :
    (choose_action actor allies enemies = .ok (.aoe_attack, none) ↔
        (3 ≤ (livingIdx enemies).length ∧ actor.cds.aoe_attack = 0 ∧
          ∃ q ∈ livingIdx enemies, q.2.stats.hp ≤ 50)) ∧
      (¬(3 ≤ (livingIdx enemies).length ∧ actor.cds.aoe_attack = 0 ∧
            ∃ q ∈ livingIdx enemies, q.2.stats.hp ≤ 50) →
        ∃ i c, choose_action actor allies enemies = .ok (.attack, some i) ∧
          (i, c) ∈ livingIdx enemies ∧
          (∀ q ∈ livingIdx enemies, c.stats.hp ≤ q.2.stats.hp) ∧
          (∀ q ∈ livingIdx enemies, q.2.stats.hp ≤ c.stats.hp → i ≤ q.1)) := by
  have hany : ((livingIdx enemies).any fun e => decide (e.2.stats.hp ≤ 50)) = true ↔
      ∃ q ∈ livingIdx enemies, q.2.stats.hp ≤ 50 := by
    simp [List.any_eq_true]
  have heq : choose_action actor allies enemies =
      if ((livingIdx enemies).length ≥ 3 ∧ actor.cds.aoe_attack = 0 ∧
          ((livingIdx enemies).any fun e => decide (e.2.stats.hp ≤ 50)) = true)
      then .ok (.aoe_attack, none)
      else .ok (.attack, (pick_enemy enemies).map (·.1)) := by
    rw [choose_action]
    simp [hne, hrole]
  by_cases hcond : 3 ≤ (livingIdx enemies).length ∧ actor.cds.aoe_attack = 0 ∧
      ∃ q ∈ livingIdx enemies, q.2.stats.hp ≤ 50
  · have hcond' : (livingIdx enemies).length ≥ 3 ∧ actor.cds.aoe_attack = 0 ∧
        ((livingIdx enemies).any fun e => decide (e.2.stats.hp ≤ 50)) = true :=
      ⟨hcond.1, hcond.2.1, hany.mpr hcond.2.2⟩
    rw [heq, if_pos hcond']
    exact ⟨⟨fun _ => hcond, fun _ => rfl⟩, fun hc => absurd hcond hc⟩
  · have hcond' : ¬((livingIdx enemies).length ≥ 3 ∧ actor.cds.aoe_attack = 0 ∧
        ((livingIdx enemies).any fun e => decide (e.2.stats.hp ≤ 50)) = true) := by
      intro hc
      exact hcond ⟨hc.1, hc.2.1, hany.mp hc.2.2⟩
    rw [heq, if_neg hcond']
    constructor
    · constructor
      · intro hk; simp at hk
      · intro hk; exact absurd hk hcond
    · intro _
      obtain ⟨a, rest, hl⟩ : ∃ a rest, livingIdx enemies = a :: rest := by
        rcases hlv : livingIdx enemies with _ | ⟨a, rest⟩
        · exact absurd hlv hne
        · exact ⟨a, rest, rfl⟩
      have hpick : pick_enemy enemies =
          some (minByKey (fun q => q.2.stats.hp) a rest) := by
        rw [pick_enemy, hl]
      have hpw : (a :: rest).Pairwise (fun x y => x.1 < y.1) := by
        rw [← hl]; exact livingIdx_pairwise enemies
      obtain ⟨hmem, hleb, hlel, hfix, hfirst⟩ :=
        minByKey_spec (fun q => q.2.stats.hp) rest a hpw
      set m := minByKey (fun q => q.2.stats.hp) a rest with hmdef
      refine ⟨m.1, m.2, ?_, ?_, ?_, ?_⟩
      · rw [hpick]; rfl
      · rw [hl]
        rcases hmem with h' | h'
        · rw [h']; exact List.mem_cons_self a rest
        · exact List.mem_cons_of_mem _ h'
      · intro q hq
        rw [hl] at hq
        rcases List.mem_cons.mp hq with h' | h'
        · rw [h']; exact hleb
        · exact hlel q h'
      · intro q hq hkq
        rw [hl] at hq
        rcases List.mem_cons.mp hq with h' | h'
        · have hma : m = a := hfix (h' ▸ hkq)
          rw [hma, h']
        · exact hfirst q h' hkq

/-- Witness for C5: a party of four half-dead enemies triggers
instantiation of the policy theorem. -/
theorem attacker_policy_witness :
    attA.role = .attacker ∧ livingIdx partyB ≠ [] ∧
      ((choose_action attA partyA partyB = .ok (.aoe_attack, none) ↔
          (3 ≤ (livingIdx partyB).length ∧ attA.cds.aoe_attack = 0 ∧
            ∃ q ∈ livingIdx partyB, q.2.stats.hp ≤ 50)) ∧
        (¬(3 ≤ (livingIdx partyB).length ∧ attA.cds.aoe_attack = 0 ∧
              ∃ q ∈ livingIdx partyB, q.2.stats.hp ≤ 50) →
          ∃ i c, choose_action attA partyA partyB = .ok (.attack, some i) ∧
            (i, c) ∈ livingIdx partyB ∧
            (∀ q ∈ livingIdx partyB, c.stats.hp ≤ q.2.stats.hp) ∧
            (∀ q ∈ livingIdx partyB, q.2.stats.hp ≤ c.stats.hp → i ≤ q.1))) :=
  ⟨rfl, by decide, attacker_policy attA partyA partyB rfl (by decide)⟩

/-! ### C6: the healer policy and its strict 0.70 boundary -/

/-- Reduction of `choose_action` in the healer branch when no living ally
can trigger the division-by-zero error. -/
theorem choose_action_healer_eq (actor : Character) (allies enemies : Party)
    (hrole : actor.role = .healer) (hne : livingIdx enemies ≠ [])
    (hguard : ((livingIdx allies).any fun q => decide (q.2.stats.max_hp = 0)) = false) :
    choose_action actor allies enemies =
      match find_most_damaged_ally allies with
      | some (i, t) =>
        if hpRatio t < 7 / 10 then .ok (.heal, some i) else .ok (.defend, none)
      | none => .ok (.defend, none) := by
  rw [choose_action]
  simp [hne, hrole, hguard]

/-- C6: a healer facing at least one living enemy targets the living ally
with the lowest `hp / max_hp` ratio, healing exactly when that ratio is
strictly below `7/10` (so ratio `0.70` yields `Defend`, `0.69` yields
`Heal`), and defends when the lowest ratio is at least `7/10`. Living
allies are assumed to have positive `max_hp` (otherwise the source raises
`ZeroDivisionError`; see `choose_action`). -/
theorem healer_policy (actor : Character) (allies enemies : Party)
    (hrole : actor.role = .healer) (hne : livingIdx enemies ≠ [])
    (hall : livingIdx allies ≠ [])
    (hmax : ∀ q ∈ livingIdx allies, 0 < q.2.stats.max_hp) :
    ∃ i t, (i, t) ∈ livingIdx allies ∧
      (∀ q ∈ livingIdx allies, hpRatio t ≤ hpRatio q.2) ∧
      (hpRatio t < 7 / 10 → choose_action actor allies enemies = .ok (.heal, some i)) ∧
      (7 / 10 ≤ hpRatio t → choose_action actor allies enemies = .ok (.defend, none)) := by
  have hguard : ((livingIdx allies).any fun q => decide (q.2.stats.max_hp = 0)) = false := by
    simp only [List.any_eq_false, decide_eq_true_eq]
    intro q hq
    exact (hmax q hq).ne'
  obtain ⟨a, rest, hl⟩ : ∃ a rest, livingIdx allies = a :: rest := by
    rcases hlv : livingIdx allies with _ | ⟨a, rest⟩
    · exact absurd hlv hall
    · exact ⟨a, rest, rfl⟩
  have hfm : find_most_damaged_ally allies =
      some (minByKey (fun q => hpRatio q.2) a rest) := by
    rw [find_most_damaged_ally, hl]
  have hpw : (a :: rest).Pairwise (fun x y => x.1 < y.1) := by
    rw [← hl]; exact livingIdx_pairwise allies
  obtain ⟨hmem, hleb, hlel, hfix, hfirst⟩ :=
    minByKey_spec (fun q => hpRatio q.2) rest a hpw
  set m := minByKey (fun q => hpRatio q.2) a rest with hmdef
  have heq2 : choose_action actor allies enemies =
      if hpRatio m.2 < 7 / 10 then .ok (.heal, some m.1) else .ok (.defend, none) := by
    rw [choose_action_healer_eq actor allies enemies hrole hne hguard, hfm]
  refine ⟨m.1, m.2, ?_, ?_, ?_, ?_⟩
  · rw [hl]
    rcases hmem with h' | h'
    · rw [h']; exact List.mem_cons_self a rest
    · exact List.mem_cons_of_mem _ h'
  · intro q hq
    rw [hl] at hq
    rcases List.mem_cons.mp hq with h' | h'
    · rw [h']; exact hleb
    · exact hlel q h'
  · intro hlt
    rw [heq2, if_pos hlt]
  · intro hge
    rw [heq2, if_neg (not_lt.mpr hge)]

/-- Witness for C6: the sample healer with full-health allies. -/
theorem healer_policy_witness :
    healA.role = .healer ∧ livingIdx partyB ≠ [] ∧ livingIdx partyA ≠ [] ∧
      (∀ q ∈ livingIdx partyA, 0 < q.2.stats.max_hp) ∧
      (∃ i t, (i, t) ∈ livingIdx partyA ∧
        (∀ q ∈ livingIdx partyA, hpRatio t ≤ hpRatio q.2) ∧
        (hpRatio t < 7 / 10 → choose_action healA partyA partyB = .ok (.heal, some i)) ∧
        (7 / 10 ≤ hpRatio t → choose_action healA partyA partyB = .ok (.defend, none))) :=
  ⟨rfl, by decide, by decide, by decide,
    healer_policy healA partyA partyB rfl (by decide) (by decide) (by decide)⟩

/-! ### C2: hp stays within `[0, max_hp]` across every damage/heal
resolver -/

/-- The hp invariant ignores the generator state. -/
theorem hpInv_rng (st : BState) (s : RState) : hpInv { st with rng := s } ↔ hpInv st :=
  Iff.rfl

/-- A successful lookup lands on an invariant-carrying character. -/
theorem charInv_of_getChar {st : BState} {id : CharId} {c : Character}
    (hinv : hpInv st) (h : getChar st id = some c) : charInv c := by
  cases id with
  | mk s i =>
    cases s
    · exact hinv.1 c (List.getElem?_mem h)
    · exact hinv.2 c (List.getElem?_mem h)

/-- Writing back an invariant-carrying character preserves the state
invariant. -/
theorem hpInv_setChar {st : BState} (hinv : hpInv st) (id : CharId) {c' : Character}
    (hc' : charInv c') : hpInv (setChar st id c') := by
  cases id with
  | mk s i =>
    cases s
    · refine ⟨?_, hinv.2⟩
      intro x hx
      rcases List.mem_or_eq_of_mem_set hx with h | h
      · exact hinv.1 x h
      · rw [h]; exact hc'
    · refine ⟨hinv.1, ?_⟩
      intro x hx
      rcases List.mem_or_eq_of_mem_set hx with h | h
      · exact hinv.2 x h
      · rw [h]; exact hc'

/-- Clamping establishes the per-character invariant whenever `max_hp` is
nonnegative, whatever the incoming hp. -/
theorem charInv_clamp (c : Character) (h : 0 ≤ c.stats.max_hp) : charInv (clamp_hp c) :=
  ⟨le_max_left _ _, max_le h (min_le_right _ _)⟩

/-- Damaging an invariant-carrying character keeps the invariant. -/
theorem charInv_apply_damage {t : Character} (h : charInv t) (raw : Int) :
    charInv (apply_damage t raw).1 := by
  have hmax : 0 ≤ t.stats.max_hp := le_trans h.1 h.2
  unfold apply_damage
  exact charInv_clamp _ hmax

/-- `effective_atk_value` never touches the stats. -/
theorem effective_atk_stats (a : Character) : (effective_atk_value a).1.stats = a.stats := by
  by_cases h : a.effects.atk_debuff = 0 <;> simp [effective_atk_value, h]

/-- `effective_atk_value` preserves the per-character invariant. -/
theorem charInv_effective {a : Character} (h : charInv a) :
    charInv (effective_atk_value a).1 := by
  unfold charInv
  rw [effective_atk_stats]
  exact h

/-- The state-level attack-value computation preserves the invariant. -/
theorem hpInv_effectiveAtkSt {st : BState} (hinv : hpInv st) (id : CharId) :
    hpInv (effectiveAtkSt st id).1 := by
  rcases hg : getChar st id with _ | a
  · simpa [effectiveAtkSt, hg] using hinv
  · simpa [effectiveAtkSt, hg] using
      hpInv_setChar hinv id (charInv_effective (charInv_of_getChar hinv hg))

/-- The state-level damage application preserves the invariant. -/
theorem hpInv_applyDamageSt {st : BState} (hinv : hpInv st) (id : CharId) (raw : Int) :
    hpInv (applyDamageSt st id raw).1 := by
  rcases hg : getChar st id with _ | t
  · simpa [applyDamageSt, hg] using hinv
  · simpa [applyDamageSt, hg] using
      hpInv_setChar hinv id (charInv_apply_damage (charInv_of_getChar hinv hg) raw)

/-- `modifyChar` with an invariant-preserving update preserves the state
invariant. -/
theorem hpInv_modifyChar {st : BState} (hinv : hpInv st) (id : CharId)
    {f : Character → Character} (hf : ∀ c, charInv c → charInv (f c)) :
    hpInv (modifyChar st id f) := by
  rcases hg : getChar st id with _ | c
  · simpa [modifyChar, hg] using hinv
  · simpa [modifyChar, hg] using
      hpInv_setChar hinv id (hf c (charInv_of_getChar hinv hg))

/-- The AOE damage loop preserves the invariant. -/
theorem hpInv_aoeApply (side : Side) (raw : Int) :
    ∀ (targets : List (Nat × Character)) (st : BState), hpInv st →
      hpInv (aoeApply side raw st targets).1 := by
  intro targets
  induction targets with
  | nil => intro st h; simpa [aoeApply] using h
  | cons q rest ih =>
    intro st h
    obtain ⟨i, c⟩ := q
    rcases hg : getChar st (side, i) with _ | t
    · simpa [aoeApply, hg] using ih st h
    · have hc := charInv_of_getChar h hg
      have h1 : hpInv (setChar st (side, i) (apply_damage t raw).1) :=
        hpInv_setChar h (side, i) (charInv_apply_damage hc raw)
      simpa [aoeApply, hg] using ih _ h1

/-- `resolve_attack` preserves the invariant. -/
theorem hpInv_resolve_attack (st : BState) (hinv : hpInv st) (a t : CharId)
    (turn : Nat) : hpInv (resolve_attack st a t turn).1 := by
  rcases hga : getChar st a with _ | ca
  · simpa [resolve_attack, hga] using hinv
  · rcases hgt : getChar st t with _ | ct
    · simpa [resolve_attack, hga, hgt] using hinv
    · by_cases hal : (ca.alive && ct.alive) = true
      · have h1 : hpInv { st with rng := (roll_dice 2 st.rng).2 } :=
          (hpInv_rng st _).mpr hinv
        simp only [resolve_attack, hga, hgt, hal, if_true]
        exact hpInv_applyDamageSt (hpInv_effectiveAtkSt h1 a) t _
      · simpa [resolve_attack, hga, hgt, hal] using hinv

/-- `resolve_aoe_attack` preserves the invariant. -/
theorem hpInv_resolve_aoe (st : BState) (hinv : hpInv st) (a : CharId) (es : Side)
    (turn : Nat) : hpInv (resolve_aoe_attack st a es turn).1 := by
  rcases hga : getChar st a with _ | ca
  · simpa [resolve_aoe_attack, hga] using hinv
  · by_cases hal : ca.alive = true
    · by_cases hemp : (livingIdx (partyOf st es)).isEmpty = true
      · simpa [resolve_aoe_attack, hga, hal, hemp] using hinv
      · have h1 : hpInv { st with rng := (roll_dice 1 st.rng).2 } :=
          (hpInv_rng st _).mpr hinv
        simp only [resolve_aoe_attack, hga, hal, hemp, if_true, if_false]
        exact hpInv_modifyChar
          (hpInv_aoeApply es _ _ _ (hpInv_effectiveAtkSt h1 a)) a
          (fun c hc => hc)
    · simpa [resolve_aoe_attack, hga, hal] using hinv

/-- `resolve_support_attack` preserves the invariant. -/
theorem hpInv_resolve_support (st : BState) (hinv : hpInv st) (a t : CharId)
    (turn : Nat) : hpInv (resolve_support_attack st a t turn).1 := by
  rcases hga : getChar st a with _ | ca
  · simpa [resolve_support_attack, hga] using hinv
  · rcases hgt : getChar st t with _ | ct
    · simpa [resolve_support_attack, hga, hgt] using hinv
    · by_cases hal : (ca.alive && ct.alive) = true
      · have h1 : hpInv { st with rng := (roll_dice 1 st.rng).2 } :=
          (hpInv_rng st _).mpr hinv
        simp only [resolve_support_attack, hga, hgt, hal, if_true]
        exact hpInv_modifyChar
          (hpInv_applyDamageSt (hpInv_effectiveAtkSt h1 a) t _) t
          (fun c hc => hc)
      · simpa [resolve_support_attack, hga, hgt, hal] using hinv

/-- `resolve_heal` preserves the invariant. -/
theorem hpInv_resolve_heal (st : BState) (hinv : hpInv st) (a t : CharId) :
    hpInv (resolve_heal st a t).1 := by
  rcases hga : getChar st a with _ | ca
  · simpa [resolve_heal, hga] using hinv
  · rcases hgt : getChar st t with _ | ct
    · simpa [resolve_heal, hga, hgt] using hinv
    · by_cases hal : (ca.alive && ct.alive) = true
      · have hc := charInv_of_getChar hinv hgt
        have h1 : hpInv { st with rng := (roll_dice 1 st.rng).2 } :=
          (hpInv_rng st _).mpr hinv
        simp only [resolve_heal, hga, hgt, hal, if_true]
        exact hpInv_setChar h1 t (charInv_clamp _ (le_trans hc.1 hc.2))
      · simpa [resolve_heal, hga, hgt, hal] using hinv

/-- C2: whenever every character's hp lies in `[0, max_hp]` before a
resolver call, it still does immediately after the call, for each of the
damage/heal resolvers (`resolve_attack`, `resolve_aoe_attack`,
`resolve_support_attack`, `resolve_heal`). -/
theorem resolver_hp_bounds (st : BState) (hinv : hpInv st) (a t : CharId)
    (es : Side) (turn : Nat) :
    hpInv (resolve_attack st a t turn).1 ∧ hpInv (resolve_aoe_attack st a es turn).1 ∧
      hpInv (resolve_support_attack st a t turn).1 ∧ hpInv (resolve_heal st a t).1 :=
  ⟨hpInv_resolve_attack st hinv a t turn, hpInv_resolve_aoe st hinv a es turn,
    hpInv_resolve_support st hinv a t turn, hpInv_resolve_heal st hinv a t⟩

/-- Witness for C2 on the concrete sample parties. -/
theorem resolver_hp_bounds_witness :
    hpInv ⟨partyA, partyB, 0⟩ ∧
      (hpInv (resolve_attack ⟨partyA, partyB, 0⟩ (Side.one, 0) (Side.two, 0) 1).1 ∧
        hpInv (resolve_aoe_attack ⟨partyA, partyB, 0⟩ (Side.one, 0) Side.two 1).1 ∧
        hpInv (resolve_support_attack ⟨partyA, partyB, 0⟩ (Side.one, 0) (Side.two, 0) 1).1 ∧
        hpInv (resolve_heal ⟨partyA, partyB, 0⟩ (Side.one, 0) (Side.two, 0)).1) :=
  ⟨by unfold hpInv charInv; decide,
    resolver_hp_bounds ⟨partyA, partyB, 0⟩ (by unfold hpInv charInv; decide)
      (Side.one, 0) (Side.two, 0) Side.two 1⟩

/-! ### C4: mid-round termination on party defeat -/

/-- C4: during a round, immediately after an actor's single resolver call,
if one party is fully dead then the round processor ends the whole battle
with the other party's name (party one is checked first, exactly as in the
source), the remaining actors of the precomputed order are not processed
(the result does not depend on them), and the battle loop returns that
winner as the battle outcome. -/
theorem midround_termination (st : BState) (id : CharId) (rest : List CharId)
    (turn : Nat) (st' : BState) (r : Option Record)
    (halive : aliveAt st id = true) (hact : actOnce st id turn = .ok (st', r)) :
    ((party_defeated st'.p1 = true →
        processOrder st (id :: rest) turn = .ended st'.p2.name r.toList ∧
        processOrder st (id :: rest) turn = processOrder st [id] turn) ∧
      (party_defeated st'.p1 = false → party_defeated st'.p2 = true →
        processOrder st (id :: rest) turn = .ended st'.p1.name r.toList ∧
        processOrder st (id :: rest) turn = processOrder st [id] turn)) ∧
      ∀ (s0 : BState) (t f : Nat) (w : String) (tr : List Record),
        processOrder (roundInit s0).1 (roundInit s0).2 t = .ended w tr →
        battleLoop s0 t (f + 1) = (.winner w, tr) := by
  refine ⟨⟨?_, ?_⟩, ?_⟩
  · intro hdef
    constructor <;> simp [processOrder, halive, hact, hdef]
  · intro hdef1 hdef2
    constructor <;> simp [processOrder, halive, hact, hdef1, hdef2]
  · intro s0 t f w tr h
    simp [battleLoop, h]

/-- Witness for C4: after the tank's defend, party one is defeated and the
battle ends mid-round without processing the remaining actor. -/
theorem midround_termination_witness :
    aliveAt wSt (Side.two, 0) = true ∧
      actOnce wSt (Side.two, 0) 1 = .ok (wSt', some wRec) ∧
      (((party_defeated wSt'.p1 = true →
          processOrder wSt ((Side.two, 0) :: [(Side.one, 0)]) 1 =
            .ended wSt'.p2.name (some wRec).toList ∧
          processOrder wSt ((Side.two, 0) :: [(Side.one, 0)]) 1 =
            processOrder wSt [(Side.two, 0)] 1) ∧
        (party_defeated wSt'.p1 = false → party_defeated wSt'.p2 = true →
          processOrder wSt ((Side.two, 0) :: [(Side.one, 0)]) 1 =
            .ended wSt'.p1.name (some wRec).toList ∧
          processOrder wSt ((Side.two, 0) :: [(Side.one, 0)]) 1 =
            processOrder wSt [(Side.two, 0)] 1)) ∧
        ∀ (s0 : BState) (t f : Nat) (w : String) (tr : List Record),
          processOrder (roundInit s0).1 (roundInit s0).2 t = .ended w tr →
          battleLoop s0 t (f + 1) = (.winner w, tr)) :=
  ⟨rfl, rfl,
    midround_termination wSt (Side.two, 0) [(Side.one, 0)] 1 wSt' (some wRec) rfl rfl⟩

/-! ### C9: degenerate parties still produce a win/draw outcome -/

/-- Cooldown ticking preserves liveness. -/
theorem tickChar_alive (c : Character) : (tickChar c).alive = c.alive := by
  unfold tickChar
  split <;> rfl

/-- The transient reset preserves liveness. -/
theorem resetChar_alive (c : Character) : (resetChar c).alive = c.alive := rfl

/-- `idxFrom` commutes with mapping over the characters. -/
theorem idxFrom_map (f : Character → Character) :
    ∀ (l : List Character) (n : Nat),
      idxFrom n (l.map f) = (idxFrom n l).map fun q => (q.1, f q.2) := by
  intro l
  induction l with
  | nil => intro n; rfl
  | cons c cs ih => intro n; simp [idxFrom, ih]

/-- Second components of `idxFrom` entries are members of the list. -/
theorem idxFrom_snd_mem :
    ∀ (l : List Character) (n : Nat) (q : Nat × Character), q ∈ idxFrom n l → q.2 ∈ l := by
  intro l
  induction l with
  | nil => intro n q hq; simp [idxFrom] at hq
  | cons c cs ih =>
    intro n q hq
    rcases List.mem_cons.mp hq with h | h
    · rw [h]; exact List.mem_cons_self _ _
    · exact List.mem_cons_of_mem _ (ih (n + 1) q h)

/-- Every member of the list appears in `idxFrom` at some index. -/
theorem idxFrom_mem_of_mem :
    ∀ (l : List Character) (n : Nat) (c : Character),
      c ∈ l → ∃ i, (i, c) ∈ idxFrom n l := by
  intro l
  induction l with
  | nil => intro n c hc; simp at hc
  | cons b bs ih =>
    intro n c hc
    rcases List.mem_cons.mp hc with h | h
    · exact ⟨n, by rw [h]; exact List.mem_cons_self _ _⟩
    · obtain ⟨i, hi⟩ := ih (n + 1) c h
      exact ⟨i, List.mem_cons_of_mem _ hi⟩

/-- `idxFrom` entries dereference back into the list. -/
theorem idxFrom_getElem :
    ∀ (l : List Character) (n : Nat) (q : Nat × Character),
      q ∈ idxFrom n l → l[q.1 - n]? = some q.2 := by
  intro l
  induction l with
  | nil => intro n q hq; simp [idxFrom] at hq
  | cons c cs ih =>
    intro n q hq
    rcases List.mem_cons.mp hq with h | h
    · rw [h]; simp
    · have hle : n + 1 ≤ q.1 := idxFrom_le h
      have harith : q.1 - n = (q.1 - (n + 1)) + 1 := by omega
      rw [harith, List.getElem?_cons_succ]
      exact ih (n + 1) q h

/-- A `livingIdx` entry dereferences to its (living) character. -/
theorem livingIdx_get {p : Party} {q : Nat × Character} (h : q ∈ livingIdx p) :
    p.members[q.1]? = some q.2 ∧ q.2.alive = true := by
  have h' := List.mem_filter.mp h
  refine ⟨?_, by simpa using h'.2⟩
  have := idxFrom_getElem p.members 0 q h'.1
  simpa using this

/-- `livingIdx` of a mapped member list, for liveness-preserving maps. -/
theorem livingIdx_map (p : Party) (f : Character → Character)
    (hf : ∀ c, (f c).alive = c.alive) :
    livingIdx { p with members := p.members.map f } =
      (livingIdx p).map fun q => (q.1, f q.2) := by
  show (idxFrom 0 (p.members.map f)).filter (fun q => q.2.alive) =
    ((idxFrom 0 p.members).filter fun q => q.2.alive).map fun q => (q.1, f q.2)
  rw [idxFrom_map, List.map_filter]
  congr 1
  apply List.filter_congr'
  intro q _
  simp [Function.comp, hf]

/-- Emptiness of `living` in terms of member liveness. -/
theorem living_eq_nil_iff (p : Party) :
    living p = [] ↔ ∀ c ∈ p.members, c.alive = false := by
  simp [living, List.filter_eq_nil_iff]

/-- Fully dead member lists yield an empty `livingIdx`. -/
theorem livingIdx_eq_nil {p : Party} (h : ∀ c ∈ p.members, c.alive = false) :
    livingIdx p = [] := by
  show (idxFrom 0 p.members).filter (fun q => q.2.alive) = []
  rw [List.filter_eq_nil_iff]
  intro q hq
  simp [h q.2 (idxFrom_snd_mem p.members 0 q hq)]

/-- A party with a living member has a nonempty `livingIdx`. -/
theorem livingIdx_ne_nil {p : Party} (h : living p ≠ []) : livingIdx p ≠ [] := by
  intro hnil
  apply h
  rw [living_eq_nil_iff]
  intro c hc
  obtain ⟨i, hi⟩ := idxFrom_mem_of_mem p.members 0 c hc
  have hnil' : (idxFrom 0 p.members).filter (fun q => q.2.alive) = [] := hnil
  have := List.filter_eq_nil_iff.mp hnil' _ hi
  simpa using this

/-- All-dead parties are defeated. -/
theorem party_defeated_true {p : Party} (h : ∀ c ∈ p.members, c.alive = false) :
    party_defeated p = true := by
  rw [party_defeated, List.all_eq_true]
  intro c hc
  rw [h c hc]
  rfl

/-- A party with a living member is not defeated. -/
theorem party_defeated_false {p : Party} {c : Character} (hm : c ∈ p.members)
    (ha : c.alive = true) : party_defeated p = false := by
  rw [party_defeated]
  cases hall : p.members.all fun c => !c.alive
  · rfl
  · exfalso
    have := List.all_eq_true.mp hall c hm
    rw [ha] at this
    simp at this

/-- `pickAt` keeps the remainder's length. -/
theorem pickAt_snd_length {α : Type} :
    ∀ (rest : List α) (a : α) (j : Nat), (pickAt a rest j).2.length = rest.length := by
  intro rest
  induction rest with
  | nil => intro a j; cases j <;> rfl
  | cons b bs ih =>
    intro a j
    cases j with
    | zero => rfl
    | succ j' => simp [pickAt, ih b j']

/-- The element picked by `pickAt` comes from the list. -/
theorem pickAt_fst_mem {α : Type} :
    ∀ (rest : List α) (a : α) (j : Nat), (pickAt a rest j).1 ∈ a :: rest := by
  intro rest
  induction rest with
  | nil => intro a j; cases j <;> exact List.mem_cons_self _ _
  | cons b bs ih =>
    intro a j
    cases j with
    | zero => exact List.mem_cons_self _ _
    | succ j' =>
      have h1 : (pickAt a (b :: bs) (j' + 1)).1 = (pickAt b bs j').1 := by
        simp [pickAt]
      rw [h1]
      exact List.mem_cons_of_mem a (ih b j')

/-- The remainder of `pickAt` comes from the list. -/
theorem pickAt_snd_subset {α : Type} :
    ∀ (rest : List α) (a : α) (j : Nat) (x : α),
      x ∈ (pickAt a rest j).2 → x ∈ a :: rest := by
  intro rest
  induction rest with
  | nil =>
    intro a j x hx
    cases j <;> simp [pickAt] at hx
  | cons b bs ih =>
    intro a j x hx
    cases j with
    | zero => exact List.mem_cons_of_mem _ hx
    | succ j' =>
      simp only [pickAt] at hx
      rcases List.mem_cons.mp hx with h | h
      · rw [h]; exact List.mem_cons_self _ _
      · exact List.mem_cons_of_mem _ (ih b j' x h)

/-- The shuffle model preserves length (given enough fuel). -/
theorem shuffleGo_length {α : Type} :
    ∀ (f : Nat) (l : List α) (s : RState), l.length ≤ f →
      (shuffleGo f l s).1.length = l.length := by
  intro f
  induction f with
  | zero =>
    intro l s h
    cases l with
    | nil => rfl
    | cons a rest => simp at h
  | succ f' ih =>
    intro l s h
    cases l with
    | nil => rfl
    | cons a rest =>
      have hlen := pickAt_snd_length rest a (randBelow (rest.length + 1) s).1
      have hfuel : (pickAt a rest (randBelow (rest.length + 1) s).1).2.length ≤ f' := by
        rw [hlen]
        have h' : rest.length + 1 ≤ f' + 1 := by simpa using h
        omega
      simp [shuffleGo, ih _ _ hfuel, hlen]

/-- The shuffle model only permutes: every output element is an input
element. -/
theorem shuffleGo_mem {α : Type} :
    ∀ (f : Nat) (l : List α) (s : RState) (x : α),
      x ∈ (shuffleGo f l s).1 → x ∈ l := by
  intro f
  induction f with
  | zero => intro l s x h; exact h
  | succ f' ih =>
    intro l s x h
    cases l with
    | nil => simpa [shuffleGo] using h
    | cons a rest =>
      simp only [shuffleGo] at h
      rcases List.mem_cons.mp h with h1 | h1
      · rw [h1]; exact pickAt_fst_mem rest a _
      · exact pickAt_snd_subset rest a _ x (ih _ _ x h1)

/-- Elements of an insertion step come from the inserted element or the
list. -/
theorem insertDesc_mem {x c : CharId × Character} :
    ∀ {l : List (CharId × Character)}, x ∈ insertDesc c l → x = c ∨ x ∈ l := by
  intro l
  induction l with
  | nil => intro h; simpa [insertDesc] using h
  | cons b bs ih =>
    intro h
    by_cases hc : spdKey b ≤ spdKey c
    · rw [insertDesc, if_pos hc] at h
      rcases List.mem_cons.mp h with h1 | h1
      · exact Or.inl h1
      · exact Or.inr h1
    · rw [insertDesc, if_neg hc] at h
      rcases List.mem_cons.mp h with h1 | h1
      · exact Or.inr (by rw [h1]; exact List.mem_cons_self _ _)
      · rcases ih h1 with h2 | h2
        · exact Or.inl h2
        · exact Or.inr (List.mem_cons_of_mem _ h2)

/-- The sort only permutes: every output element is an input element. -/
theorem sortBySpd_mem {x : CharId × Character} :
    ∀ {l : List (CharId × Character)}, x ∈ sortBySpd l → x ∈ l := by
  intro l
  induction l with
  | nil => intro h; simpa [sortBySpd] using h
  | cons b bs ih =>
    intro h
    have h' : x ∈ insertDesc b (sortBySpd bs) := h
    rcases insertDesc_mem h' with h1 | h1
    · rw [h1]; exact List.mem_cons_self _ _
    · exact List.mem_cons_of_mem _ (ih h1)

/-- Insertion grows the length by one. -/
theorem insertDesc_length (c : CharId × Character) :
    ∀ (l : List (CharId × Character)), (insertDesc c l).length = l.length + 1 := by
  intro l
  induction l with
  | nil => rfl
  | cons b bs ih => by_cases h : spdKey b ≤ spdKey c <;> simp [insertDesc, h, ih]

/-- The sort preserves length. -/
theorem sortBySpd_length :
    ∀ (l : List (CharId × Character)), (sortBySpd l).length = l.length := by
  intro l
  induction l with
  | nil => rfl
  | cons b bs ih =>
    show (insertDesc b (sortBySpd bs)).length = bs.length + 1
    rw [insertDesc_length, ih]

/-- Unfolding of `build_turn_order`'s order component. -/
theorem build_turn_order_fst (st : BState) :
    (build_turn_order st).1 =
      (sortBySpd (shuffle (taggedLiving st) st.rng).1).map (·.1) := rfl

/-- Unfolding of `roundInit`'s order component. -/
theorem roundInit_snd (st : BState) :
    (roundInit st).2 = (build_turn_order (reset_turn_flags (tick_cooldowns st))).1 := rfl

/-- Dead members stay dead under liveness-preserving maps. -/
theorem dead_members_map {l : List Character} (f : Character → Character)
    (hf : ∀ c, (f c).alive = c.alive)
    (h : ∀ c ∈ l, c.alive = false) :
    ∀ c ∈ l.map f, c.alive = false := by
  intro c hc
  obtain ⟨x, hx, rfl⟩ := List.mem_map.mp hc
  rw [hf]
  exact h x hx

/-- With both parties fully dead, every round builds an empty order and
the battle runs out the turn limit to a draw. -/
theorem battleLoop_all_dead :
    ∀ (fuel : Nat) (st : BState) (turn : Nat),
      (∀ c ∈ st.p1.members, c.alive = false) →
      (∀ c ∈ st.p2.members, c.alive = false) →
      battleLoop st turn fuel = (.draw, []) := by
  intro fuel
  induction fuel with
  | zero => intro st turn h1 h2; rfl
  | succ f ih =>
    intro st turn h1 h2
    have hd1 : ∀ c ∈ (reset_turn_flags (tick_cooldowns st)).p1.members, c.alive = false :=
      dead_members_map resetChar resetChar_alive
        (dead_members_map tickChar tickChar_alive h1)
    have hd2 : ∀ c ∈ (reset_turn_flags (tick_cooldowns st)).p2.members, c.alive = false :=
      dead_members_map resetChar resetChar_alive
        (dead_members_map tickChar tickChar_alive h2)
    have hli1 : livingIdx (reset_turn_flags (tick_cooldowns st)).p1 = [] :=
      livingIdx_eq_nil hd1
    have hli2 : livingIdx (reset_turn_flags (tick_cooldowns st)).p2 = [] :=
      livingIdx_eq_nil hd2
    have htag : taggedLiving (reset_turn_flags (tick_cooldowns st)) = [] := by
      unfold taggedLiving
      rw [hli1, hli2]
      rfl
    have horder : (roundInit st).2 = [] := by
      rw [roundInit_snd, build_turn_order_fst, htag]
      rfl
    have hrec := ih (roundInit st).1 (turn + 1) hd1 hd2
    simp [battleLoop, horder, processOrder, hrec]

/-- With party one fully dead and party two having a living member, the
first actor of the first round acts and the battle immediately ends with
a winner. -/
theorem battleLoop_p1_dead (st : BState) (turn f : Nat)
    (h1 : ∀ c ∈ st.p1.members, c.alive = false) (h2 : living st.p2 ≠ []) :
    ∃ w tr, battleLoop st turn (f + 1) = (.winner w, tr) := by
  have hd1 : ∀ c ∈ (reset_turn_flags (tick_cooldowns st)).p1.members, c.alive = false :=
    dead_members_map resetChar resetChar_alive
      (dead_members_map tickChar tickChar_alive h1)
  have hli1 : livingIdx (reset_turn_flags (tick_cooldowns st)).p1 = [] :=
    livingIdx_eq_nil hd1
  have hlt2 : livingIdx st.p2 ≠ [] := livingIdx_ne_nil h2
  have e1 : livingIdx (reset_turn_flags (tick_cooldowns st)).p2 =
      (livingIdx (tick_cooldowns st).p2).map fun q => (q.1, resetChar q.2) :=
    livingIdx_map (tick_cooldowns st).p2 resetChar resetChar_alive
  have e2 : livingIdx (tick_cooldowns st).p2 =
      (livingIdx st.p2).map fun q => (q.1, tickChar q.2) :=
    livingIdx_map st.p2 tickChar tickChar_alive
  have hne2 : livingIdx (reset_turn_flags (tick_cooldowns st)).p2 ≠ [] := by
    rw [e1, e2]
    intro h0
    exact hlt2 (List.map_eq_nil_iff.mp (List.map_eq_nil_iff.mp h0))
  have htag : taggedLiving (reset_turn_flags (tick_cooldowns st)) =
      (livingIdx (reset_turn_flags (tick_cooldowns st)).p2).map
        fun q => ((Side.two, q.1), q.2) := by
    unfold taggedLiving
    rw [hli1]
    rfl
  have htagne : taggedLiving (reset_turn_flags (tick_cooldowns st)) ≠ [] := by
    rw [htag]
    intro h0
    exact hne2 (List.map_eq_nil_iff.mp h0)
  have hlen : (roundInit st).2.length =
      (taggedLiving (reset_turn_flags (tick_cooldowns st))).length := by
    rw [roundInit_snd, build_turn_order_fst, List.length_map, sortBySpd_length]
    exact shuffleGo_length _ _ _ (le_refl _)
  obtain ⟨o, os, hoeq⟩ : ∃ o os, (roundInit st).2 = o :: os := by
    cases hc : (roundInit st).2 with
    | nil =>
      exfalso
      rw [hc] at hlen
      exact htagne (List.length_eq_zero.mp hlen.symm)
    | cons o os => exact ⟨o, os, rfl⟩
  have homem : o ∈ (roundInit st).2 := by
    rw [hoeq]; exact List.mem_cons_self _ _
  rw [roundInit_snd, build_turn_order_fst] at homem
  obtain ⟨pair, hpmem, hpo⟩ := List.mem_map.mp homem
  have hp3 : pair ∈ taggedLiving (reset_turn_flags (tick_cooldowns st)) :=
    shuffleGo_mem _ _ _ _ (sortBySpd_mem hpmem)
  rw [htag] at hp3
  obtain ⟨q, hq, hqp⟩ := List.mem_map.mp hp3
  obtain ⟨hget, halive⟩ := livingIdx_get hq
  have ho : o = (Side.two, q.1) := by
    rw [← hpo, ← hqp]
  have hg3 : getChar (roundInit st).1 (Side.two, q.1) = some q.2 := hget
  have haliveAt : aliveAt (roundInit st).1 (Side.two, q.1) = true := by
    unfold aliveAt
    rw [hg3]
    exact halive
  have hnot : q.2 ∉ (roundInit st).1.p1.members := by
    intro hmem
    have hdead := hd1 q.2 hmem
    rw [hdead] at halive
    exact Bool.false_ne_true halive
  have hside : sideOf (roundInit st).1 q.2 = Side.two := by
    unfold sideOf
    rw [if_neg hnot]
  have hlie : livingIdx (partyOf (roundInit st).1 Side.one) = [] := hli1
  have hch : choose_action q.2 (partyOf (roundInit st).1 Side.two)
      (partyOf (roundInit st).1 Side.one) = .ok (.defend, none) := by
    rw [choose_action]
    simp [hlie]
  have hact : actOnce (roundInit st).1 (Side.two, q.1) turn =
      .ok (resolve_defend (roundInit st).1 (Side.two, q.1)) := by
    unfold actOnce
    rw [hg3]
    simp only [hside]
    rw [show Side.other Side.two = Side.one from rfl, hch]
  have hres : resolve_defend (roundInit st).1 (Side.two, q.1) =
      (setChar (roundInit st).1 (Side.two, q.1)
          { q.2 with effects := { q.2.effects with defending := true } },
        some { actor := q.2.name, act := .defend, dice := 0, raw := 0, hits := [] }) := by
    unfold resolve_defend
    rw [hg3]
    simp [halive, modifyChar, hg3]
  have hp1keep : (setChar (roundInit st).1 (Side.two, q.1)
      { q.2 with effects := { q.2.effects with defending := true } }).p1 =
      (roundInit st).1.p1 := rfl
  have hdef1 : party_defeated (setChar (roundInit st).1 (Side.two, q.1)
      { q.2 with effects := { q.2.effects with defending := true } }).p1 = true := by
    rw [hp1keep]
    exact party_defeated_true hd1
  have hproc : processOrder (roundInit st).1 (roundInit st).2 turn =
      .ended (setChar (roundInit st).1 (Side.two, q.1)
          { q.2 with effects := { q.2.effects with defending := true } }).p2.name
        [{ actor := q.2.name, act := .defend, dice := 0, raw := 0, hits := [] }] := by
    rw [hoeq, ho]
    simp [processOrder, haliveAt, hact, hres, hdef1]
  refine ⟨(setChar (roundInit st).1 (Side.two, q.1)
      { q.2 with effects := { q.2.effects with defending := true } }).p2.name,
    [{ actor := q.2.name, act := .defend, dice := 0, raw := 0, hits := [] }], ?_⟩
  simp [battleLoop, hproc]

/-- With party two fully dead and party one having a living member, the
first actor of the first round acts and the battle immediately ends with
a winner. -/
theorem battleLoop_p2_dead (st : BState) (turn f : Nat)
    (h2 : ∀ c ∈ st.p2.members, c.alive = false) (h1 : living st.p1 ≠ []) :
    ∃ w tr, battleLoop st turn (f + 1) = (.winner w, tr) := by
  have hd2 : ∀ c ∈ (reset_turn_flags (tick_cooldowns st)).p2.members, c.alive = false :=
    dead_members_map resetChar resetChar_alive
      (dead_members_map tickChar tickChar_alive h2)
  have hli2 : livingIdx (reset_turn_flags (tick_cooldowns st)).p2 = [] :=
    livingIdx_eq_nil hd2
  have hlt1 : livingIdx st.p1 ≠ [] := livingIdx_ne_nil h1
  have e1 : livingIdx (reset_turn_flags (tick_cooldowns st)).p1 =
      (livingIdx (tick_cooldowns st).p1).map fun q => (q.1, resetChar q.2) :=
    livingIdx_map (tick_cooldowns st).p1 resetChar resetChar_alive
  have e2 : livingIdx (tick_cooldowns st).p1 =
      (livingIdx st.p1).map fun q => (q.1, tickChar q.2) :=
    livingIdx_map st.p1 tickChar tickChar_alive
  have hne1 : livingIdx (reset_turn_flags (tick_cooldowns st)).p1 ≠ [] := by
    rw [e1, e2]
    intro h0
    exact hlt1 (List.map_eq_nil_iff.mp (List.map_eq_nil_iff.mp h0))
  have htag : taggedLiving (reset_turn_flags (tick_cooldowns st)) =
      (livingIdx (reset_turn_flags (tick_cooldowns st)).p1).map
        fun q => ((Side.one, q.1), q.2) := by
    unfold taggedLiving
    rw [hli2]
    simp
  have htagne : taggedLiving (reset_turn_flags (tick_cooldowns st)) ≠ [] := by
    rw [htag]
    intro h0
    exact hne1 (List.map_eq_nil_iff.mp h0)
  have hlen : (roundInit st).2.length =
      (taggedLiving (reset_turn_flags (tick_cooldowns st))).length := by
    rw [roundInit_snd, build_turn_order_fst, List.length_map, sortBySpd_length]
    exact shuffleGo_length _ _ _ (le_refl _)
  obtain ⟨o, os, hoeq⟩ : ∃ o os, (roundInit st).2 = o :: os := by
    cases hc : (roundInit st).2 with
    | nil =>
      exfalso
      rw [hc] at hlen
      exact htagne (List.length_eq_zero.mp hlen.symm)
    | cons o os => exact ⟨o, os, rfl⟩
  have homem : o ∈ (roundInit st).2 := by
    rw [hoeq]; exact List.mem_cons_self _ _
  rw [roundInit_snd, build_turn_order_fst] at homem
  obtain ⟨pair, hpmem, hpo⟩ := List.mem_map.mp homem
  have hp3 : pair ∈ taggedLiving (reset_turn_flags (tick_cooldowns st)) :=
    shuffleGo_mem _ _ _ _ (sortBySpd_mem hpmem)
  rw [htag] at hp3
  obtain ⟨q, hq, hqp⟩ := List.mem_map.mp hp3
  obtain ⟨hget, halive⟩ := livingIdx_get hq
  have ho : o = (Side.one, q.1) := by
    rw [← hpo, ← hqp]
  have hg3 : getChar (roundInit st).1 (Side.one, q.1) = some q.2 := hget
  have haliveAt : aliveAt (roundInit st).1 (Side.one, q.1) = true := by
    unfold aliveAt
    rw [hg3]
    exact halive
  have hmem1 : q.2 ∈ (roundInit st).1.p1.members := by
    have hlt : q.1 < (reset_turn_flags (tick_cooldowns st)).p1.members.length :=
      (List.getElem?_eq_some.mp hget).1
    exact List.getElem?_mem hget
  have hside : sideOf (roundInit st).1 q.2 = Side.one := by
    unfold sideOf
    rw [if_pos hmem1]
  have hlie : livingIdx (partyOf (roundInit st).1 Side.two) = [] := hli2
  have hch : choose_action q.2 (partyOf (roundInit st).1 Side.one)
      (partyOf (roundInit st).1 Side.two) = .ok (.defend, none) := by
    rw [choose_action]
    simp [hlie]
  have hact : actOnce (roundInit st).1 (Side.one, q.1) turn =
      .ok (resolve_defend (roundInit st).1 (Side.one, q.1)) := by
    unfold actOnce
    rw [hg3]
    simp only [hside]
    rw [show Side.other Side.one = Side.two from rfl, hch]
  have hres : resolve_defend (roundInit st).1 (Side.one, q.1) =
      (setChar (roundInit st).1 (Side.one, q.1)
          { q.2 with effects := { q.2.effects with defending := true } },
        some { actor := q.2.name, act := .defend, dice := 0, raw := 0, hits := [] }) := by
    unfold resolve_defend
    rw [hg3]
    simp [halive, modifyChar, hg3]
  have hlt : q.1 < (roundInit st).1.p1.members.length :=
    (List.getElem?_eq_some.mp hg3).1
  have hmemset : ({ q.2 with effects := { q.2.effects with defending := true } }
      : Character) ∈ (setChar (roundInit st).1 (Side.one, q.1)
        { q.2 with effects := { q.2.effects with defending := true } }).p1.members := by
    have hset : ((roundInit st).1.p1.members.set q.1
        { q.2 with effects := { q.2.effects with defending := true } })[q.1]? =
        some { q.2 with effects := { q.2.effects with defending := true } } :=
      List.getElem?_set_eq hlt
    exact List.getElem?_mem hset
  have hdef1 : party_defeated (setChar (roundInit st).1 (Side.one, q.1)
      { q.2 with effects := { q.2.effects with defending := true } }).p1 = false :=
    party_defeated_false hmemset halive
  have hp2keep : (setChar (roundInit st).1 (Side.one, q.1)
      { q.2 with effects := { q.2.effects with defending := true } }).p2 =
      (roundInit st).1.p2 := rfl
  have hdef2 : party_defeated (setChar (roundInit st).1 (Side.one, q.1)
      { q.2 with effects := { q.2.effects with defending := true } }).p2 = true := by
    rw [hp2keep]
    exact party_defeated_true hd2
  have hproc : processOrder (roundInit st).1 (roundInit st).2 turn =
      .ended (setChar (roundInit st).1 (Side.one, q.1)
          { q.2 with effects := { q.2.effects with defending := true } }).p1.name
        [{ actor := q.2.name, act := .defend, dice := 0, raw := 0, hits := [] }] := by
    rw [hoeq, ho]
    simp [processOrder, haliveAt, hact, hres, hdef1, hdef2]
  refine ⟨(setChar (roundInit st).1 (Side.one, q.1)
      { q.2 with effects := { q.2.effects with defending := true } }).p1.name,
    [{ actor := q.2.name, act := .defend, dice := 0, raw := 0, hits := [] }], ?_⟩
  simp [battleLoop, hproc]

/-- C9: a battle in which at least one party has no living members (in
particular an empty party) terminates normally with a winner or a draw —
never with a raised error — for every seed and every turn limit. -/
theorem empty_party_safe (p1 p2 : Party) (seed : Int) (L : Nat)
    (h : living p1 = [] ∨ living p2 = []) :
    battle p1 p2 seed L = .draw ∨ ∃ n, battle p1 p2 seed L = .winner n := by
  unfold battle battleFull
  cases L with
  | zero => exact Or.inl rfl
  | succ f =>
    rcases h with h1 | h2
    · have hd1 : ∀ c ∈ p1.members, c.alive = false := (living_eq_nil_iff p1).mp h1
      by_cases hl2 : living p2 = []
      · have hd2 : ∀ c ∈ p2.members, c.alive = false := (living_eq_nil_iff p2).mp hl2
        left
        rw [battleLoop_all_dead (f + 1) ⟨p1, p2, seed_state seed⟩ 1 hd1 hd2]
      · right
        obtain ⟨w, tr, hw⟩ :=
          battleLoop_p1_dead ⟨p1, p2, seed_state seed⟩ 1 f hd1 hl2
        exact ⟨w, by rw [hw]⟩
    · have hd2 : ∀ c ∈ p2.members, c.alive = false := (living_eq_nil_iff p2).mp h2
      by_cases hl1 : living p1 = []
      · have hd1 : ∀ c ∈ p1.members, c.alive = false := (living_eq_nil_iff p1).mp hl1
        left
        rw [battleLoop_all_dead (f + 1) ⟨p1, p2, seed_state seed⟩ 1 hd1 hd2]
      · right
        obtain ⟨w, tr, hw⟩ :=
          battleLoop_p2_dead ⟨p1, p2, seed_state seed⟩ 1 f hd2 hl1
        exact ⟨w, by rw [hw]⟩

/-- Witness for C9: an empty party one against the sample party two. -/
theorem empty_party_safe_witness :
    (living { name := "E", members := [] } = [] ∨ living partyB = []) ∧
      (battle { name := "E", members := [] } partyB 7 50 = .draw ∨
        ∃ n, battle { name := "E", members := [] } partyB 7 50 = .winner n) :=
  ⟨Or.inl rfl, empty_party_safe { name := "E", members := [] } partyB 7 50 (Or.inl rfl)⟩

end BattleMvp
